import Mathlib

/-!
Verification of the pile/task core of the stack-todo application.

The source (src/main.rs) defines two stateful units:

* `Pile`: owns a `PileInfo` descriptor and a `VecDeque<Task>`; handles the
  requests `complete_current`, `push_task` and `pile_top`.
* `PileRegistry`: owns a `u32` counter and a `HashMap<u32, ProcessRef<Pile>>`;
  handles `create_pile`, `get_pile` and `delete_pile`.

We embed these shallowly:

* `VecDeque<Task>` becomes `List Task` with the head of the list as the front
  of the deque and the last element as the back; `push_back`, `pop_back`,
  `pop_front`, `back()` and `front()` become the corresponding list operations.
* A `ProcessRef<Pile>` (an opaque handle to a spawned unit) becomes a process
  id `Nat`; the collection of live pile units is an association list from
  process id to the unit's current `Pile` state, carried in a `World` record
  together with the registry state and a fresh-pid counter.
* The `u32` registry counter becomes a `Nat` reduced modulo `2 ^ 32` at the
  increment (`self.counter += 1` wraps in release builds; in debug builds it
  panics at the same point, so either way the pure `Nat` successor is not the
  u32 behaviour at `u32::MAX`).
* Each request/response exchange becomes a pure function from the unit state
  (plus arguments) to a result and the successor state.  A handler taking
  `&self` cannot mutate, so its successor state is the input state itself.
-/

namespace StackTodo

/-- Number of values of the Rust `u32` type; the registry counter wraps at
this modulus. -/
def u32size : Nat := 2 ^ 32

/-- Embedding of `Task { id: u32, title: String, description: String }` from src/main.rs.
No arithmetic is ever performed on `id`, so it is embedded as a plain `Nat`. -/
structure Task where
  id : Nat
  title : String
  description : String
deriving DecidableEq, Repr

/-- Embedding of `PileInfo { id: u32, name: String, description: String, is_stack: bool }`
from src/main.rs. -/
structure PileInfo where
  id : Nat
  name : String
  description : String
  is_stack : Bool
deriving DecidableEq, Repr

/-- Embedding of `Pile { info: PileInfo, tasks: VecDeque<Task> }` from src/main.rs.
The deque is a list whose head is the front and whose last element is the
back. -/
structure Pile where
  info : PileInfo
  tasks : List Task
deriving DecidableEq, Repr

/-- Embedding of `VecDeque::pop_back`: removes and returns the back element, leaving an
empty deque unchanged. -/
def popBack (l : List Task) : Option Task × List Task :=
  match l.getLast? with
  | none => (none, l)
  | some t => (some t, l.dropLast)

/-- Embedding of `VecDeque::pop_front`: removes and returns the front element, leaving an
empty deque unchanged. -/
def popFront (l : List Task) : Option Task × List Task :=
  match l with
  | [] => (none, [])
  | t :: ts => (some t, ts)

/-- Embedding of `Pile::init`: builds the unit state from the supplied `PileInfo` with an
empty task deque; in the source it always returns `Ok`. -/
def Pile.init (info : PileInfo) : Except Unit Pile :=
  Except.ok { info := info, tasks := [] }

/-- The pile state `Pile::init` wraps in `Ok`: the given info and no tasks. -/
def Pile.initState (info : PileInfo) : Pile :=
  { info := info, tasks := [] }

/-- Embedding of `Pile::complete_current` (`&mut self`): `pop_back` when `info.is_stack`,
otherwise `pop_front`; returns the popped task (if any) and the successor
state. -/
def Pile.complete_current (p : Pile) : Option Task × Pile :=
  if p.info.is_stack then
    let r := popBack p.tasks
    (r.1, { p with tasks := r.2 })
  else
    let r := popFront p.tasks
    (r.1, { p with tasks := r.2 })

/-- Embedding of `Pile::push_task` (`&mut self`): `push_back` of the new task. -/
def Pile.push_task (p : Pile) (new_task : Task) : Pile :=
  { p with tasks := p.tasks ++ [new_task] }

/-- Embedding of `Pile::pile_top` (`&self`): a clone of `back()` when `info.is_stack`,
otherwise of `front()`; cloning a value is the identity in the embedding. -/
def Pile.pile_top (p : Pile) : Option Task :=
  if p.info.is_stack then p.tasks.getLast? else p.tasks.head?

/-- The request/response exchange for `pile_top`: the handler takes `&self`,
so the successor state is the input state. -/
def Pile.top_step (p : Pile) : Option Task × Pile :=
  (p.pile_top, p)

/-- A sequence of `push_task` requests, one per task, in list order. -/
def Pile.pushAll (p : Pile) (ts : List Task) : Pile :=
  ts.foldl Pile.push_task p

/-- Runs `n` successive `complete_current` requests; collects the tasks actually
returned (in order) and the final state. -/
def Pile.completeN (p : Pile) : Nat → List Task × Pile
  | 0 => ([], p)
  | Nat.succ n =>
    let r := p.complete_current
    let rest := r.2.completeN n
    (r.1.toList ++ rest.1, rest.2)

/-- Runs `n` successive `pile_top` requests; collects the returned results and the
final state. -/
def Pile.topN (p : Pile) : Nat → List (Option Task) × Pile
  | 0 => ([], p)
  | Nat.succ n =>
    let r := p.top_step
    let rest := r.2.topN n
    (r.1 :: rest.1, rest.2)

/-- Lookup in an association list, the embedding of `HashMap::get`: the value
of the first pair whose key matches. -/
def assocGet {β : Type} : List (Nat × β) → Nat → Option β
  | [], _ => none
  | kv :: rest, key => if kv.1 = key then some kv.2 else assocGet rest key

/-- Removal from an association list, the embedding of `HashMap::remove`:
drops every pair whose key matches (a hash map holds at most one). -/
def assocRemove {β : Type} : List (Nat × β) → Nat → List (Nat × β)
  | [], _ => []
  | kv :: rest, key =>
    if kv.1 = key then assocRemove rest key else kv :: assocRemove rest key

/-- Insertion into an association list, the embedding of `HashMap::insert`:
the new pair shadows (replaces) any pair with the same key. -/
def assocInsert {β : Type} (m : List (Nat × β)) (k : Nat) (v : β) : List (Nat × β) :=
  (k, v) :: assocRemove m k

/-- The keys of the association list are pairwise distinct; holds of every
map reachable by registry operations (a `HashMap` has unique keys). -/
@[reducible] def KeysNodup {β : Type} (m : List (Nat × β)) : Prop :=
  (m.map Prod.fst).Nodup

/-- Embedding of `PileRegistry { counter: u32, piles: HashMap<u32, ProcessRef<Pile>> }`
from src/main.rs.  A `ProcessRef<Pile>` is embedded as the process id (`Nat`)
of the spawned pile unit. -/
structure PileRegistry where
  counter : Nat
  piles : List (Nat × Nat)
deriving DecidableEq, Repr

/-- The world the registry operates in: the registry state, the association
of process ids to the states of the live pile units (a spawned unit per
`Pile::start`), and the next fresh process id. -/
structure World where
  registry : PileRegistry
  procs : List (Nat × Pile)
  nextPid : Nat
deriving DecidableEq, Repr

/-- Embedding of `PileRegistry::default()` inside an empty world: counter `0`, no piles,
no live units. -/
def World.initial : World :=
  { registry := { counter := 0, piles := [] }, procs := [], nextPid := 0 }

/-- Embedding of `PileRegistry::create_pile`: reads the counter as the new id, increments
the `u32` counter (wrapping at `2 ^ 32`), builds the `PileInfo`, spawns a new
pile unit in the state `Pile::init` produces, inserts the id-to-handle
mapping and returns the descriptor together with the handle. -/
def World.create_pile (w : World) (name description : String) (is_stack : Bool) :
    World × PileInfo × Nat :=
  let id := w.registry.counter
  let info : PileInfo :=
    { id := id, name := name, description := description, is_stack := is_stack }
  let pid := w.nextPid
  ({ registry := { counter := (w.registry.counter + 1) % u32size,
                   piles := assocInsert w.registry.piles id pid },
     procs := (pid, Pile.initState info) :: w.procs,
     nextPid := w.nextPid + 1 },
   info, pid)

/-- Embedding of `PileRegistry::get_pile`: `self.piles.get(&pile_id)` followed by a clone
of the handle. -/
def PileRegistry.get_pile (r : PileRegistry) (pile_id : Nat) : Option Nat :=
  assocGet r.piles pile_id

/-- The request/response exchange for `get_pile` on the world: the handler
only reads `self.piles`, so the successor world is the input world. -/
def World.get_pile (w : World) (pile_id : Nat) : Option Nat × World :=
  (w.registry.get_pile pile_id, w)

/-- Embedding of `PileRegistry::delete_pile`: if the id is mapped, kill the pile unit
(remove it from the live units) and remove the mapping entry; otherwise do
nothing. -/
def World.delete_pile (w : World) (pile_id : Nat) : World :=
  match w.registry.get_pile pile_id with
  | some pid =>
      { registry := { counter := w.registry.counter,
                      piles := assocRemove w.registry.piles pile_id },
        procs := assocRemove w.procs pid,
        nextPid := w.nextPid }
  | none => w

/-- One request to the registry: `create_pile`, `get_pile` or `delete_pile`. -/
inductive RegOp where
  | create (name description : String) (is_stack : Bool)
  | get (pile_id : Nat)
  | del (pile_id : Nat)
deriving DecidableEq, Repr

/-- Runs a sequence of registry requests in order, collecting the ids that
the `create_pile` requests hand out (in order) and the final world. -/
def runOps : World → List RegOp → World × List Nat
  | w, [] => (w, [])
  | w, RegOp.create name description is_stack :: ops =>
      let r := w.create_pile name description is_stack
      let rest := runOps r.1 ops
      (rest.1, r.2.1.id :: rest.2)
  | w, RegOp.get i :: ops => runOps (w.get_pile i).2 ops
  | w, RegOp.del i :: ops => runOps (w.delete_pile i) ops

/-- Number of `create_pile` requests in the sequence. -/
def createCount : List RegOp → Nat
  | [] => 0
  | RegOp.create _ _ _ :: ops => createCount ops + 1
  | RegOp.get _ :: ops => createCount ops
  | RegOp.del _ :: ops => createCount ops

/-- Outcome of a `create_pile` request when the spawn of the pile unit is
taken into account: a normal reply, an error reply that leaves the registry
running (what the specification describes for startup failure), or a panic
of the registry unit itself. -/
inductive CreateOutcome where
  | ok (w : World) (info : PileInfo) (handle : Nat)
  | failure (w : World)
  | panic
deriving DecidableEq, Repr

/-- Whether the outcome is an error reply that leaves the registry alive. -/
def CreateOutcome.isFailure : CreateOutcome → Bool
  | CreateOutcome.failure _ => true
  | _ => false

/-- Embedding of `PileRegistry::create_pile` with the runtime outcome of `Pile::start`
made explicit: `start` spawns a unit (the spawn itself can fail at the
runtime level, `spawnOk = false`) and runs `Pile::init` in it; the source
applies `.unwrap()` to `start`'s result, so an `Err` panics the registry
unit — `CreateOutcome.panic` — instead of producing an error reply. -/
def World.create_pile_run (w : World) (name description : String) (is_stack : Bool)
    (spawnOk : Bool) : CreateOutcome :=
  let id := w.registry.counter
  let info : PileInfo :=
    { id := id, name := name, description := description, is_stack := is_stack }
  let started : Except Unit (Nat × Pile) :=
    if spawnOk then
      match Pile.init info with
      | Except.ok p => Except.ok (w.nextPid, p)
      | Except.error e => Except.error e
    else Except.error ()
  match started with
  | Except.ok pp =>
      CreateOutcome.ok
        { registry := { counter := (w.registry.counter + 1) % u32size,
                        piles := assocInsert w.registry.piles id pp.1 },
          procs := pp :: w.procs,
          nextPid := w.nextPid + 1 }
        info pp.1
  | Except.error _ => CreateOutcome.panic

/-- A registry state one create away from the `u32` counter wrap. -/
def wMax : World :=
  { registry := { counter := u32size - 1, piles := [] }, procs := [], nextPid := 0 }

/-- The world after creating two piles in sequence (ids 0 and 1). -/
def twoPileWorld : World :=
  ((World.initial.create_pile "a" "" true).1.create_pile "b" "" false).1

end StackTodo

namespace StackTodo

theorem pushAll_tasks (p : Pile) (ts : List Task) :
    (p.pushAll ts).tasks = p.tasks ++ ts ∧ (p.pushAll ts).info = p.info := by
  induction ts generalizing p with
  | nil => simp [Pile.pushAll]
  | cons t ts ih =>
    have h := ih (p.push_task t)
    simpa [Pile.pushAll, Pile.push_task, List.foldl_cons] using h

theorem completeN_stack (l : List Task) (p : Pile)
    (hs : p.info.is_stack = true) (ht : p.tasks = l) :
    (p.completeN l.length).1 = l.reverse ∧
      (p.completeN l.length).2 = { p with tasks := [] } := by
  induction l using List.reverseRecOn generalizing p with
  | nil =>
    obtain ⟨i, t⟩ := p
    simp only at ht
    subst ht
    exact ⟨rfl, rfl⟩
  | append_singleton l a ih =>
    have hlen : (l ++ [a]).length = l.length + 1 := by simp
    have hpop : popBack p.tasks = (some a, l) := by
      rw [ht]
      simp [popBack, List.getLast?_concat, List.dropLast_concat]
    have hcc : p.complete_current = (some a, { p with tasks := l }) := by
      simp [Pile.complete_current, hs, hpop]
    have ih' := ih { p with tasks := l } hs rfl
    rw [hlen]
    constructor
    · show (p.completeN (l.length + 1)).1 = (l ++ [a]).reverse
      simp only [Pile.completeN, hcc, List.reverse_concat]
      simpa using ih'.1
    · show (p.completeN (l.length + 1)).2 = { p with tasks := [] }
      simp only [Pile.completeN, hcc]
      exact ih'.2

theorem completeN_queue (l : List Task) (p : Pile)
    (hs : p.info.is_stack = false) (ht : p.tasks = l) :
    (p.completeN l.length).1 = l ∧
      (p.completeN l.length).2 = { p with tasks := [] } := by
  induction l generalizing p with
  | nil =>
    obtain ⟨i, t⟩ := p
    simp only at ht
    subst ht
    exact ⟨rfl, rfl⟩
  | cons a l ih =>
    have hcc : p.complete_current = (some a, { p with tasks := l }) := by
      simp [Pile.complete_current, hs, popFront, ht]
    have ih' := ih { p with tasks := l } hs rfl
    constructor
    · show (p.completeN (l.length + 1)).1 = a :: l
      simp only [Pile.completeN, hcc]
      simpa using ih'.1
    · show (p.completeN (l.length + 1)).2 = { p with tasks := [] }
      simp only [Pile.completeN, hcc]
      exact ih'.2

/-- C1: on a stack-mode pile that starts empty, pushing the tasks `ts` in
order and then completing `ts.length` times returns exactly `ts.reverse`:
completions come back in LIFO order. -/
theorem stack_mode_completes_in_lifo_order (info : PileInfo) (ts : List Task)
    (hs : info.is_stack = true) :
    (((Pile.initState info).pushAll ts).completeN ts.length).1 = ts.reverse := by
  have hp := pushAll_tasks (Pile.initState info) ts
  have htasks : ((Pile.initState info).pushAll ts).tasks = ts := by
    simpa [Pile.initState] using hp.1
  have hinfo : ((Pile.initState info).pushAll ts).info.is_stack = true := by
    rw [hp.2]; exact hs
  exact (completeN_stack ts _ hinfo htasks).1

/-- Witness for C1 at a concrete stack pile and three concrete tasks. -/
theorem stack_mode_completes_in_lifo_order_witness :
    (((Pile.initState { id := 0, name := "work", description := "", is_stack := true }).pushAll
        [{ id := 1, title := "A", description := "" },
         { id := 2, title := "B", description := "" },
         { id := 3, title := "C", description := "" }]).completeN
      ([{ id := 1, title := "A", description := "" },
        { id := 2, title := "B", description := "" },
        { id := 3, title := "C", description := "" }] : List Task).length).1 =
      ([{ id := 1, title := "A", description := "" },
        { id := 2, title := "B", description := "" },
        { id := 3, title := "C", description := "" }] : List Task).reverse :=
  stack_mode_completes_in_lifo_order _ _ rfl

/-- C2: on a queue-mode pile that starts empty, pushing the tasks `ts` in
order and then completing `ts.length` times returns exactly `ts`: completions
come back in FIFO order. -/
theorem queue_mode_completes_in_fifo_order (info : PileInfo) (ts : List Task)
    (hs : info.is_stack = false) :
    (((Pile.initState info).pushAll ts).completeN ts.length).1 = ts := by
  have hp := pushAll_tasks (Pile.initState info) ts
  have htasks : ((Pile.initState info).pushAll ts).tasks = ts := by
    simpa [Pile.initState] using hp.1
  have hinfo : ((Pile.initState info).pushAll ts).info.is_stack = false := by
    rw [hp.2]; exact hs
  exact (completeN_queue ts _ hinfo htasks).1

/-- Witness for C2 at a concrete queue pile and two concrete tasks. -/
theorem queue_mode_completes_in_fifo_order_witness :
    (((Pile.initState { id := 0, name := "q", description := "", is_stack := false }).pushAll
        [{ id := 1, title := "A", description := "" },
         { id := 2, title := "B", description := "" }]).completeN
      ([{ id := 1, title := "A", description := "" },
        { id := 2, title := "B", description := "" }] : List Task).length).1 =
      [{ id := 1, title := "A", description := "" },
       { id := 2, title := "B", description := "" }] :=
  queue_mode_completes_in_fifo_order _ _ rfl

theorem pile_top_eq_complete_current_fst (p : Pile) :
    p.pile_top = p.complete_current.1 := by
  by_cases hs : p.info.is_stack
  · simp only [Pile.pile_top, Pile.complete_current, hs, if_pos]
    cases h : p.tasks.getLast? <;> simp [popBack, h]
  · simp only [Pile.pile_top, Pile.complete_current, hs, if_neg]
    cases h : p.tasks with
    | nil => simp [popFront, h]
    | cons t ts => simp [popFront, h]

/-- C3: `pile_top` is read-only: `n` successive `pile_top` exchanges leave
the pile state exactly as it was, each returns the same result (the task at
the active removal end, i.e. the one `complete_current` would remove), and a
subsequent `complete_current` behaves exactly as if no `pile_top` had been
issued. -/
theorem pile_top_is_read_only (p : Pile) (n : Nat) :
    (p.topN n).2 = p ∧
      (p.topN n).1 = List.replicate n p.pile_top ∧
      p.pile_top = p.complete_current.1 ∧
      (p.topN n).2.complete_current = p.complete_current := by
  have hstate : ∀ m, (p.topN m).2 = p ∧ (p.topN m).1 = List.replicate m p.pile_top := by
    intro m
    induction m with
    | zero => exact ⟨rfl, rfl⟩
    | succ m ih =>
      refine ⟨?_, ?_⟩
      · simpa [Pile.topN, Pile.top_step] using ih.1
      · simp [Pile.topN, Pile.top_step, List.replicate_succ, ih.1, ih.2]
  refine ⟨(hstate n).1, (hstate n).2, pile_top_eq_complete_current_fst p, ?_⟩
  rw [(hstate n).1]

/-- C4: on a pile whose task deque is empty, `complete_current` returns the
empty result and leaves the state unchanged, and `pile_top` returns the empty
result as well. -/
theorem empty_pile_complete_and_top_return_none (p : Pile) (h : p.tasks = []) :
    p.complete_current = (none, p) ∧ p.pile_top = none := by
  obtain ⟨i, t⟩ := p
  simp only at h
  subst h
  constructor
  · by_cases hs : i.is_stack <;>
      simp [Pile.complete_current, hs, popBack, popFront]
  · by_cases hs : i.is_stack <;>
      simp [Pile.pile_top, hs]

/-- Witness for C4 at a concrete empty stack pile. -/
theorem empty_pile_complete_and_top_return_none_witness :
    (Pile.initState { id := 7, name := "w", description := "", is_stack := true }).complete_current
        = (none, Pile.initState { id := 7, name := "w", description := "", is_stack := true }) ∧
      (Pile.initState { id := 7, name := "w", description := "", is_stack := true }).pile_top
        = none :=
  empty_pile_complete_and_top_return_none _ rfl

theorem assocGet_none_iff {β : Type} (m : List (Nat × β)) (key : Nat) :
    assocGet m key = none ↔ ∀ v, (key, v) ∉ m := by
  induction m with
  | nil => simp [assocGet]
  | cons kv rest ih =>
    obtain ⟨k, v⟩ := kv
    by_cases hk : k = key
    · subst hk
      simp only [assocGet, if_pos rfl]
      constructor
      · intro h; cases h
      · intro hAll; exact absurd (List.mem_cons_self _ _) (hAll v)
    · simp only [assocGet, if_neg hk, ih, List.mem_cons]
      constructor
      · rintro hAll v' (h | h)
        · exact hk (congrArg Prod.fst h.symm)
        · exact hAll v' h
      · intro hAll v' h
        exact hAll v' (Or.inr h)

theorem assocGet_of_mem_nodup {β : Type} (m : List (Nat × β)) (hnd : KeysNodup m)
    (key : Nat) (v : β) (h : (key, v) ∈ m) : assocGet m key = some v := by
  induction m with
  | nil => cases h
  | cons kv rest ih =>
    obtain ⟨k, v'⟩ := kv
    rcases List.mem_cons.mp h with h1 | h1
    · cases h1
      simp [assocGet]
    · have hk : k ≠ key := by
        intro hkk
        subst hkk
        have : k ∈ rest.map Prod.fst :=
          List.mem_map.mpr ⟨(k, v), h1, rfl⟩
        exact (List.nodup_cons.mp hnd).1 this
      simp only [assocGet, if_neg hk]
      exact ih (List.nodup_cons.mp hnd).2 h1

theorem assocGet_mem {β : Type} (m : List (Nat × β)) (key : Nat) (v : β)
    (h : assocGet m key = some v) : (key, v) ∈ m := by
  induction m with
  | nil => cases h
  | cons kv rest ih =>
    obtain ⟨k, v'⟩ := kv
    by_cases hk : k = key
    · subst hk
      have hv : v' = v := by simpa [assocGet] using h
      subst hv
      exact List.mem_cons_self _ _
    · simp only [assocGet, if_neg hk] at h
      exact List.mem_cons.mpr (Or.inr (ih h))

theorem assocGet_remove_self {β : Type} (m : List (Nat × β)) (key : Nat) :
    assocGet (assocRemove m key) key = none := by
  induction m with
  | nil => rfl
  | cons kv rest ih =>
    obtain ⟨k, v⟩ := kv
    by_cases hk : k = key
    · simpa [assocRemove, if_pos hk] using ih
    · simpa [assocRemove, assocGet, if_neg hk] using ih

theorem assocGet_remove_ne {β : Type} (m : List (Nat × β)) (key q : Nat)
    (hq : q ≠ key) : assocGet (assocRemove m key) q = assocGet m q := by
  induction m with
  | nil => rfl
  | cons kv rest ih =>
    obtain ⟨k, v⟩ := kv
    by_cases hk : k = key
    · have hkq : k ≠ q := fun h => hq (h ▸ hk)
      rw [show assocRemove ((k, v) :: rest) key = assocRemove rest key from by
        simp [assocRemove, hk]]
      rw [ih]
      simp [assocGet, hkq]
    · by_cases hkq : k = q
      · simp [assocRemove, hk, assocGet, hkq, hq]
      · simp [assocRemove, hk, assocGet, hkq, ih]

/-- C6 (amended): `create_pile` returns a `PileInfo` whose id is the counter
value before the call and whose remaining fields are the arguments, advances
the `u32` counter by one modulo `2 ^ 32`, inserts the id-to-handle mapping
(so an immediately following `get_pile` on that id returns the returned
handle), and spawns the pile unit behind the handle in its initial state. -/
theorem create_pile_allocates_id_and_registers_handle (w : World)
    (name description : String) (is_stack : Bool) :
    (w.create_pile name description is_stack).2.1.id = w.registry.counter ∧
      (w.create_pile name description is_stack).2.1.name = name ∧
      (w.create_pile name description is_stack).2.1.description = description ∧
      (w.create_pile name description is_stack).2.1.is_stack = is_stack ∧
      (w.create_pile name description is_stack).1.registry.counter
        = (w.registry.counter + 1) % u32size ∧
      (w.create_pile name description is_stack).1.registry.get_pile
          (w.create_pile name description is_stack).2.1.id
        = some (w.create_pile name description is_stack).2.2 := by
  refine ⟨rfl, rfl, rfl, rfl, rfl, ?_⟩
  simp [World.create_pile, PileRegistry.get_pile, assocInsert, assocGet]

/-- C6 counterexample: at a registry whose counter is `u32::MAX`, the next
`create_pile` does not increment the counter by exactly one — the `u32`
counter wraps to `0`. -/
theorem create_pile_counter_wraps_at_u32_max :
    ¬ ((wMax.create_pile "n" "d" true).1.registry.counter
        = wMax.registry.counter + 1) := by
  decide

theorem delete_pile_registry_counter (w : World) (i : Nat) :
    (w.delete_pile i).registry.counter = w.registry.counter := by
  unfold World.delete_pile
  cases h : w.registry.get_pile i <;> simp

/-- Closed form for the ids handed out by a sequence of registry requests:
the `k`-th `create_pile` request returns `(counter₀ + k) % 2 ^ 32`. -/
theorem runOps_ids (ops : List RegOp) :
    ∀ w : World, w.registry.counter < u32size →
      (runOps w ops).2
        = (List.range (createCount ops)).map
            (fun i => (w.registry.counter + i) % u32size) := by
  induction ops with
  | nil => intro w _; rfl
  | cons op ops ih =>
    intro w hw
    cases op with
    | create name description is_stack =>
      have hm : 0 < u32size := by decide
      have hw' : ((w.create_pile name description is_stack).1).registry.counter < u32size :=
        Nat.mod_lt _ hm
      have hrec := ih (w.create_pile name description is_stack).1 hw'
      show (w.create_pile name description is_stack).2.1.id ::
          (runOps (w.create_pile name description is_stack).1 ops).2 = _
      rw [hrec]
      have hcounter : ((w.create_pile name description is_stack).1).registry.counter
          = (w.registry.counter + 1) % u32size := rfl
      rw [hcounter]
      have hid : (w.create_pile name description is_stack).2.1.id
          = w.registry.counter := rfl
      rw [hid]
      show _ = (List.range (createCount ops + 1)).map
          (fun i => (w.registry.counter + i) % u32size)
      rw [List.range_succ_eq_map, List.map_cons, List.map_map]
      congr 1
      · exact (Nat.mod_eq_of_lt hw).symm
      · apply List.map_congr_left
        intro a _
        show ((w.registry.counter + 1) % u32size + a) % u32size
            = (w.registry.counter + (a + 1)) % u32size
        rw [Nat.mod_add_mod]
        congr 1
        omega
    | get i => exact ih w hw
    | del i =>
      have hc : ((w.delete_pile i)).registry.counter = w.registry.counter :=
        delete_pile_registry_counter w i
      have hrec := ih (w.delete_pile i) (by rw [hc]; exact hw)
      show (runOps (w.delete_pile i) ops).2 = _
      rw [hrec, hc]
      rfl

theorem createCount_replicate (n : Nat) (name description : String) (is_stack : Bool) :
    createCount (List.replicate n (RegOp.create name description is_stack)) = n := by
  induction n with
  | zero => rfl
  | succ n ih => simp [List.replicate_succ, createCount, ih]

/-- C5 (amended): starting from the initial registry, across any sequence of
`create_pile`, `get_pile` and `delete_pile` requests containing at most
`2 ^ 32` creates, the ids handed out by `create_pile` are pairwise strictly
increasing in order of allocation — in particular no id is ever handed out
twice, even when `delete_pile` is called on the most recently created id
before the next create. -/
theorem create_ids_strictly_increasing_up_to_u32 (ops : List RegOp)
    (h : createCount ops ≤ u32size) :
    List.Pairwise (fun a b => a < b) (runOps World.initial ops).2 := by
  have h0 : World.initial.registry.counter < u32size := by decide
  rw [runOps_ids ops World.initial h0]
  have hcongr : ∀ i ∈ List.range (createCount ops),
      (World.initial.registry.counter + i) % u32size = i := by
    intro i hi
    have hi' : i < u32size := lt_of_lt_of_le (List.mem_range.mp hi) h
    show (0 + i) % u32size = i
    rw [Nat.zero_add]
    exact Nat.mod_eq_of_lt hi'
  rw [List.map_congr_left hcongr, List.map_id']
  exact List.pairwise_lt_range (createCount ops)

/-- Witness for C5: four requests — create, create, delete of the most
recent id, create — hand out the strictly increasing ids 0, 1, 2. -/
theorem create_ids_strictly_increasing_up_to_u32_witness :
    List.Pairwise (fun a b => a < b)
      (runOps World.initial
        [RegOp.create "a" "" true, RegOp.create "b" "" false,
         RegOp.del 1, RegOp.create "c" "" true]).2 :=
  create_ids_strictly_increasing_up_to_u32 _ (by decide)

/-- C5 counterexample: over a full registry lifetime the claim fails — after
`2 ^ 32 + 1` creates the `u32` counter has wrapped, the first and the last
create both return id `0`, and the id sequence is not strictly increasing
(in a debug build the increment panics at the same call instead). -/
theorem create_ids_repeat_after_u32_wrap :
    ¬ List.Pairwise (fun a b => a < b)
        (runOps World.initial
          (List.replicate (u32size + 1) (RegOp.create "n" "" true))).2 := by
  intro hP
  have h0 : World.initial.registry.counter < u32size := by decide
  rw [runOps_ids _ _ h0, createCount_replicate, List.range_succ, List.map_append,
    List.pairwise_append] at hP
  obtain ⟨-, -, hlt⟩ := hP
  have h00 : (0 : Nat) ∈ (List.range u32size).map
      (fun i => (World.initial.registry.counter + i) % u32size) :=
    List.mem_map.mpr ⟨0, List.mem_range.mpr (by decide), by decide⟩
  have hmem : (World.initial.registry.counter + u32size) % u32size ∈
      ([u32size].map (fun i => (World.initial.registry.counter + i) % u32size)) := by
    simp
  have hcontra := hlt 0 h00 _ hmem
  have hlast : (World.initial.registry.counter + u32size) % u32size = 0 := by
    show (0 + u32size) % u32size = 0
    rw [Nat.zero_add, Nat.mod_self]
  rw [hlast] at hcontra
  exact lt_irrefl 0 hcontra

/-- C7: `get_pile` leaves the world unchanged, its reply is exactly the
mapping lookup, the reply is empty precisely when no entry for the id is in
the mapping, and (with the hash map's unique keys) the reply is a handle
precisely when the id is mapped to that handle. -/
theorem get_pile_pure_lookup (w : World) (pile_id : Nat) :
    (w.get_pile pile_id).2 = w ∧
      (w.get_pile pile_id).1 = w.registry.get_pile pile_id ∧
      (w.registry.get_pile pile_id = none ↔
        ∀ h, (pile_id, h) ∉ w.registry.piles) ∧
      (KeysNodup w.registry.piles →
        ∀ h, (w.registry.get_pile pile_id = some h ↔ (pile_id, h) ∈ w.registry.piles)) := by
  refine ⟨rfl, rfl, assocGet_none_iff _ _, ?_⟩
  intro hnd h
  exact ⟨assocGet_mem _ _ _, assocGet_of_mem_nodup _ hnd _ _⟩

/-- Witness for C7 at the two-pile world: id 0 resolves to handle 0, id 5
was never created and resolves to nothing. -/
theorem get_pile_pure_lookup_witness :
    twoPileWorld.registry.get_pile 0 = some 0 ∧
      twoPileWorld.registry.get_pile 5 = none :=
  ⟨((get_pile_pure_lookup twoPileWorld 0).2.2.2 (by decide) 0).mpr (by decide),
   (get_pile_pure_lookup twoPileWorld 5).2.2.1.mpr (by
      intro v hv
      have hp : twoPileWorld.registry.piles = [(1, 1), (0, 0)] := by decide
      rw [hp] at hv
      simp at hv)⟩

/-- C8: when the id is mapped, `delete_pile` terminates that pile's unit and
removes the mapping entry — a subsequent `get_pile` on the id replies empty —
while the counter, the next pid, and the entry of every other id are
untouched; when the id is not mapped, `delete_pile` changes nothing. -/
theorem delete_pile_removes_only_target (w : World) (pile_id : Nat) :
    (w.registry.get_pile pile_id = none → w.delete_pile pile_id = w) ∧
      (∀ pid, w.registry.get_pile pile_id = some pid →
        (w.delete_pile pile_id).registry.counter = w.registry.counter ∧
          (w.delete_pile pile_id).registry.piles = assocRemove w.registry.piles pile_id ∧
          (w.delete_pile pile_id).registry.get_pile pile_id = none ∧
          (∀ q, q ≠ pile_id →
            (w.delete_pile pile_id).registry.get_pile q = w.registry.get_pile q) ∧
          (w.delete_pile pile_id).procs = assocRemove w.procs pid ∧
          (w.delete_pile pile_id).nextPid = w.nextPid) := by
  constructor
  · intro hnone
    unfold World.delete_pile
    rw [hnone]
  · intro pid hsome
    have hd : w.delete_pile pile_id =
        { registry := { counter := w.registry.counter,
                        piles := assocRemove w.registry.piles pile_id },
          procs := assocRemove w.procs pid,
          nextPid := w.nextPid } := by
      unfold World.delete_pile
      rw [hsome]
    rw [hd]
    refine ⟨rfl, rfl, assocGet_remove_self _ _, ?_, rfl, rfl⟩
    intro q hq
    exact assocGet_remove_ne _ _ _ hq

/-- Witness for C8 at the two-pile world: deleting id 0 makes `get_pile 0`
empty while `get_pile 1` is unaffected, and deleting the absent id 5 is a
no-op. -/
theorem delete_pile_removes_only_target_witness :
    ((twoPileWorld.delete_pile 0).registry.get_pile 0 = none ∧
        (twoPileWorld.delete_pile 0).registry.get_pile 1
          = twoPileWorld.registry.get_pile 1) ∧
      twoPileWorld.delete_pile 5 = twoPileWorld :=
  ⟨⟨((delete_pile_removes_only_target twoPileWorld 0).2 0 (by decide)).2.2.1,
    ((delete_pile_removes_only_target twoPileWorld 0).2 0 (by decide)).2.2.2.1 1
      (by decide)⟩,
   (delete_pile_removes_only_target twoPileWorld 5).1 (by decide)⟩

theorem initState_complete_and_top (info : PileInfo) :
    (Pile.initState info).complete_current = (none, Pile.initState info) ∧
      (Pile.initState info).pile_top = none := by
  cases hs : info.is_stack <;>
    simp [Pile.initState, Pile.complete_current, Pile.pile_top, hs, popBack, popFront]

/-- C10: every `create_pile` spawns the pile unit behind the returned handle
in the state `Pile::init` builds — the returned info and an empty task
deque — so before any `push_task` both `complete_current` and `pile_top` on
that unit reply empty (and `complete_current` leaves it unchanged). -/
theorem new_pile_starts_empty (w : World) (name description : String) (is_stack : Bool) :
    Pile.init (w.create_pile name description is_stack).2.1
        = Except.ok (Pile.initState (w.create_pile name description is_stack).2.1) ∧
      assocGet (w.create_pile name description is_stack).1.procs
          (w.create_pile name description is_stack).2.2
        = some (Pile.initState (w.create_pile name description is_stack).2.1) ∧
      (Pile.initState (w.create_pile name description is_stack).2.1).complete_current
        = (none, Pile.initState (w.create_pile name description is_stack).2.1) ∧
      (Pile.initState (w.create_pile name description is_stack).2.1).pile_top = none := by
  refine ⟨rfl, ?_, initState_complete_and_top _⟩
  simp [World.create_pile, assocGet]

/-- C9 (amended): when the spawn of the new pile unit fails, `create_pile`
panics on the `unwrap` and the registry unit crashes — the failure is not
surfaced as an error reply of `create_pile`, no mapping entry is inserted
and no post-call registry state survives; when the spawn succeeds the call
behaves exactly as the total `create_pile`. -/
theorem start_failure_panics_registry (w : World) (name description : String)
    (is_stack : Bool) :
    w.create_pile_run name description is_stack false = CreateOutcome.panic ∧
      w.create_pile_run name description is_stack true
        = CreateOutcome.ok (w.create_pile name description is_stack).1
            (w.create_pile name description is_stack).2.1
            (w.create_pile name description is_stack).2.2 :=
  ⟨rfl, rfl⟩

/-- C9 counterexample: at the initial world, a `create_pile` whose unit
spawn fails does not produce an error reply that leaves the registry
running — the registry unit panics. -/
theorem start_failure_not_surfaced_as_failure :
    (World.initial.create_pile_run "n" "d" true false).isFailure = false ∧
      World.initial.create_pile_run "n" "d" true false = CreateOutcome.panic :=
  ⟨rfl, rfl⟩

end StackTodo
